import Mathlib

set_option maxHeartbeats 2000000
set_option maxRecDepth 8000

/-!
Verification of the template-rendering contract of the
`reloaded-templates-rust` repository.

The repository ships four template files (embedded verbatim below as
`buildRsText`, `libRootText`, `libProjText`, `fuzzText`).  The rendering
engine itself is an external collaborator, so the `Parse`/`Render` pair is
modelled from the specification: substitution directives, conditional
blocks with whitespace-trim markers, and the three error kinds.
-/

/-- Modelled from the spec: the repository does not contain the renderer
(only the template files); a Variable Set value is either a boolean or a
string. -/
inductive VarValue where
  | bool (b : Bool)
  | str (s : String)
deriving DecidableEq, Repr

/-- Modelled from the spec: a Variable Set is a mapping from
case-sensitive variable names to boolean/string values. -/
abbrev VarSet := List (String × VarValue)

/-- Modelled from the spec: name lookup in a Variable Set. -/
def lookupVar : VarSet → String → Option VarValue
  | [], _ => none
  | (k, val) :: rest, n => if k = n then some val else lookupVar rest n

/-- Modelled from the spec: the three error kinds of the renderer. -/
inductive RenderError where
  | syntaxError (msg : String)
  | undefinedVariable (n : String)
  | typeMismatch (n : String)
deriving DecidableEq, Repr

/-- Modelled from the spec: lexer tokens — literal characters, inline
substitutions and conditional-block delimiters with their trim flags. -/
inductive Tok where
  | chr (c : Char)
  | tsubst (n : String)
  | tif (n : String) (lt rt : Bool)
  | tendif (lt rt : Bool)
deriving DecidableEq, Repr

/-- The opening brace character. -/
def lbr : Char := Char.ofNat 123

/-- The closing brace character. -/
def rbr : Char := Char.ofNat 125

/-- The percent character. -/
def pct : Char := Char.ofNat 37

/-- Modelled from the spec: variable names are identifiers using letters,
digits, underscore, and hyphen. -/
def isNameChar (c : Char) : Bool := c.isAlpha || c.isDigit || c = '_' || c = '-'

/-- Drop leading whitespace characters. -/
def lstrip (l : List Char) : List Char := l.dropWhile Char.isWhitespace

/-- Drop trailing whitespace characters. -/
def rstrip (l : List Char) : List Char := (l.reverse.dropWhile Char.isWhitespace).reverse

/-- Drop leading and trailing whitespace characters. -/
def trimWs (l : List Char) : List Char := rstrip (lstrip l)

/-- A valid variable name is nonempty and made of name characters. -/
def validName (l : List Char) : Bool := !l.isEmpty && l.all isNameChar

/-- Modelled from the spec: the interior of a substitution directive is a
variable name with optional surrounding whitespace. -/
def parseSubst (content : List Char) : Option String :=
  let n := trimWs content
  if validName n then some (String.mk n) else none

/-- Modelled from the spec: detect a trim marker immediately inside the
opening delimiter of a block directive. -/
def tagLeft (content : List Char) : Bool × List Char :=
  match content with
  | c :: rest => if c = '-' then (true, rest) else (false, c :: rest)
  | [] => (false, [])

/-- Modelled from the spec: detect a trim marker immediately inside the
closing delimiter of a block directive. -/
def tagRight (l : List Char) : Bool × List Char :=
  match l.getLast? with
  | some c => if c = '-' then (true, l.dropLast) else (false, l)
  | none => (false, l)

/-- Modelled from the spec: the keyword and name of a block directive —
either `if` followed by a condition name, or `endif`; any other keyword
is malformed. -/
def tagCore (l : List Char) (lt rt : Bool) : Option Tok :=
  match l with
  | 'i' :: 'f' :: rest =>
    match rest with
    | c :: _ =>
      if c.isWhitespace then
        let n := trimWs rest
        if validName n then some (.tif (String.mk n) lt rt) else none
      else none
    | [] => none
  | 'e' :: 'n' :: 'd' :: 'i' :: 'f' :: rest =>
    if rest.isEmpty then some (.tendif lt rt) else none
  | _ => none

/-- Modelled from the spec: the interior of a block directive — optional
trim markers immediately inside either delimiter around a recognized
keyword. -/
def parseTag (content : List Char) : Option Tok :=
  tagCore (trimWs (tagRight (tagLeft content).2).2)
    (tagLeft content).1 (tagRight (tagLeft content).2).1

/-- Scan for the first adjacent pair `a b` in a character list, returning
the text before the pair and the text after it. -/
def splitTag (a b : Char) : List Char → Option (List Char × List Char)
  | [] => none
  | [_] => none
  | x :: y :: rest =>
    if x = a && y = b then some ([], rest)
    else
      match splitTag a b (y :: rest) with
      | some (p, r) => some (x :: p, r)
      | none => none

/-- Modelled from the spec: the lexer — scans the raw template text for
the two directive syntaxes; anything else is literal text.  An
unterminated or malformed directive is a `SyntaxError`.  The fuel
argument is an upper bound on recursion depth; `lex` supplies enough. -/
def lexF : Nat → List Char → Except RenderError (List Tok)
  | 0, _ => .error (.syntaxError "out of fuel")
  | _ + 1, [] => .ok []
  | _ + 1, [c] => .ok [.chr c]
  | fuel + 1, c1 :: c2 :: rest =>
    if c1 = lbr && c2 = lbr then
      match splitTag rbr rbr rest with
      | none => .error (.syntaxError "unterminated substitution")
      | some (content, rem) =>
        match parseSubst content with
        | none => .error (.syntaxError "malformed substitution")
        | some n =>
          match lexF fuel rem with
          | .ok toks => .ok (.tsubst n :: toks)
          | .error e => .error e
    else if c1 = lbr && c2 = pct then
      match splitTag pct rbr rest with
      | none => .error (.syntaxError "unterminated directive")
      | some (content, rem) =>
        match parseTag content with
        | none => .error (.syntaxError "malformed directive")
        | some tok =>
          match lexF fuel rem with
          | .ok toks => .ok (tok :: toks)
          | .error e => .error e
    else
      match lexF fuel (c2 :: rest) with
      | .ok toks => .ok (.chr c1 :: toks)
      | .error e => .error e

/-- Lex a whole character stream. -/
def lex (cs : List Char) : Except RenderError (List Tok) := lexF (cs.length + 1) cs

/-- Modelled from the spec: document nodes — literal text, substitutions,
and conditional blocks carrying the trim flags of both delimiters and a
nested body. -/
inductive Node where
  | text (s : List Char)
  | subst (n : String)
  | cond (n : String) (lt rt : Bool) (body : List Node) (elt ert : Bool)

/-- Append one literal character to the (reversed) node accumulator,
coalescing adjacent literal characters into one text node. -/
def addChar (c : Char) (cur : List Node) : List Node :=
  match cur with
  | .text s :: rest => .text (s ++ [c]) :: rest
  | _ => .text [c] :: cur

/-- Modelled from the spec: tree building — every `if` must have a
matching `endif`; violations are `SyntaxError`s.  The stack holds, for
each open conditional, its name, trim flags and the nodes accumulated
before it. -/
def buildAux : List (String × Bool × Bool × List Node) → List Node → List Tok →
    Except RenderError (List Node)
  | [], cur, [] => .ok cur.reverse
  | _ :: _, _, [] => .error (.syntaxError "if without matching endif")
  | stack, cur, .chr c :: ts => buildAux stack (addChar c cur) ts
  | stack, cur, .tsubst n :: ts => buildAux stack (.subst n :: cur) ts
  | stack, cur, .tif n lt rt :: ts => buildAux ((n, lt, rt, cur) :: stack) [] ts
  | [], _, .tendif _ _ :: _ => .error (.syntaxError "endif without matching if")
  | (n, lt, rt, saved) :: stack, cur, .tendif elt ert :: ts =>
    buildAux stack (.cond n lt rt cur.reverse elt ert :: saved) ts

/-- Modelled from the spec: Parse — pure, producing an immutable document
tree or a `SyntaxError`. -/
def parseC (cs : List Char) : Except RenderError (List Node) :=
  match lex cs with
  | .ok toks => buildAux [] [] toks
  | .error e => .error e

/-- Parse of a template string. -/
def parse (t : String) : Except RenderError (List Node) := parseC t.data

/-- Render state: the output accumulated so far, and whether a
right-trim marker is pending against upcoming literal text. -/
structure RState where
  out : List Char
  pending : Bool
deriving DecidableEq, Repr

/-- Emit literal text, honouring a pending right-trim marker: the
adjacent run of whitespace is dropped, and the trim stays pending while
only whitespace has been seen. -/
def emitText (s : List Char) (st : RState) : RState :=
  if st.pending then
    let s' := lstrip s
    if s'.isEmpty then st
    else { out := st.out ++ s', pending := false }
  else { out := st.out ++ s, pending := false }

mutual
/-- Modelled from the spec: Render of one node — literal text is copied
(after trim adjustments), a substitution is replaced by the referenced
string value, a conditional block is expanded only when its condition is
true and otherwise omitted (markers included) entirely; a missing name is
an `UndefinedVariableError`, a value of the wrong kind a
`TypeMismatchError`. -/
def renderNode (v : VarSet) : Node → RState → Except RenderError RState
  | .text s, st => .ok (emitText s st)
  | .subst n, st =>
    match lookupVar v n with
    | none => .error (.undefinedVariable n)
    | some (.bool _) => .error (.typeMismatch n)
    | some (.str s) => .ok { out := st.out ++ s.data, pending := false }
  | .cond n lt rt body elt ert, st =>
    match lookupVar v n with
    | none => .error (.undefinedVariable n)
    | some (.str _) => .error (.typeMismatch n)
    | some (.bool b) =>
      if b then
        match renderNodes v body { out := if lt then rstrip st.out else st.out, pending := rt } with
        | .error e => .error e
        | .ok st2 => .ok { out := if elt then rstrip st2.out else st2.out, pending := ert }
      else .ok st

/-- Modelled from the spec: Render walks the node sequence in order,
threading the output state. -/
def renderNodes (v : VarSet) : List Node → RState → Except RenderError RState
  | [], st => .ok st
  | n :: rest, st =>
    match renderNode v n st with
    | .ok st' => renderNodes v rest st'
    | .error e => .error e
end

/-- Modelled from the spec: Render of a whole document from the empty
output state. -/
def renderDoc (d : List Node) (v : VarSet) : Except RenderError String :=
  match renderNodes v d { out := [], pending := false } with
  | .ok st => .ok (String.mk st.out)
  | .error e => .error e

/-- Render(Parse(t), v): parse a template text and render the document. -/
def renderTemplate (t : String) (v : VarSet) : Except RenderError String :=
  match parse t with
  | .ok d => renderDoc d v
  | .error e => .error e

/-- Exact text of the repository file
`src/templates/general/src/\x7b\x7bproject-name\x7d\x7d/build.rs`. -/
def buildRsText : String :=
  "fn main() \x7b\n    // Build time scripts go here. If you have nothing to do here, you can remove this file.\n\x7b% if build_csharp_libs -%\x7d\n    csbindgen::Builder::default()\n        .input_extern_file(\"src/exports.rs\")\n        .csharp_dll_name(\"\x7b\x7bcrate_name\x7d\x7d\")\n        .csharp_class_accessibility(\"public\")\n        .csharp_namespace(\"\x7b\x7bcrate_name\x7d\x7d.Net.Sys\")\n        .generate_csharp_file(\"../bindings/csharp/NativeMethods.g.cs\")\n        .unwrap();\n\x7b% endif %\x7d\n\x7d\n\n"

/-- Exact text of the repository file `src/templates/library/src/lib.rs`. -/
def libRootText : String :=
  "#![doc = include_str!(\"../README.MD\")]\n\x7b%- if no-std-by-default %\x7d\n#![cfg_attr(not(test), no_std)]\n\x7b%- endif %\x7d\n\x7b%- if std-by-default %\x7d\n#![cfg_attr(not(feature = \"std\"), no_std)]\n\x7b%- endif %\x7d\n\x7b%- if build_c_libs %\x7d\n#[cfg(feature = \"c-exports\")]\npub mod exports;\n\x7b%- endif %\x7d\n\n#[cfg(test)]\nmod tests \x7b\n    #[test]\n    fn it_works() \x7b\n        assert_eq!(2 + 2, 4);\n    \x7d\n\x7d\n\n"

/-- Exact text of the repository file
`src/templates/library/src/\x7b\x7bproject-name\x7d\x7d/src/lib.rs`. -/
def libProjText : String :=
  "#![doc = include_str!(concat!(\"../\", env!(\"CARGO_PKG_README\")))]\n\x7b%- if no-std-by-default %\x7d\n#![no_std]\n\x7b%- endif %\x7d\n\x7b%- if std-by-default %\x7d\n#![no_std]\n#[cfg(feature = \"std\")]\nextern crate std;\n\x7b%- endif %\x7d\n\x7b%- if build_c_libs %\x7d\n#[cfg(feature = \"c-exports\")]\npub mod exports;\n\x7b%- endif %\x7d\n\n#[cfg(test)]\nmod tests \x7b\n    #[test]\n    fn it_works() \x7b\n        assert_eq!(2 + 2, 4);\n    \x7d\n\x7d\n"

/-- Exact text of the repository file
`src/templates/library/src/fuzz/fuzz_targets/fuzz_example.rs`. -/
def fuzzText : String :=
  "//! Fuzz target for testing with random inputs.\n//!\n//! # Getting Started\n//! See the cargo-fuzz tutorial: <https://rust-fuzz.github.io/book/cargo-fuzz/tutorial.html>\n//!\n//! # Running This Target\n//! ```bash\n//! cargo +nightly fuzz run fuzz_example\n//! ```\n\n#![no_main]\n\nuse libfuzzer_sys::fuzz_target;\n\nfuzz_target!(|_data: &[u8]| \x7b\n    // fuzzed code goes here\n\x7d);\n\n"

/-- A character stream with no directive opener: no adjacent pair
opening a substitution or a block directive. -/
def noOpen : List Char → Bool
  | [] => true
  | [_] => true
  | c1 :: c2 :: rest => !(c1 = lbr && (c2 = lbr || c2 = pct)) && noOpen (c2 :: rest)

/-- A character stream with no adjacent pair `a b`. -/
def noPair (a b : Char) : List Char → Bool
  | [] => true
  | [_] => true
  | x :: y :: rest => !(x = a && y = b) && noPair a b (y :: rest)

/-- Matching check for a token stream, tracking the number of open
conditionals: an `endif` with no conditional open, or input ending with
conditionals still open, is unbalanced — exactly the spec's "every `if`
has a matching `endif`". -/
def balAux : Nat → List Tok → Bool
  | d, [] => d == 0
  | d, .tif _ _ _ :: ts => balAux (d + 1) ts
  | d, .tendif _ _ :: ts => if d == 0 then false else balAux (d - 1) ts
  | d, .chr _ :: ts => balAux d ts
  | d, .tsubst _ :: ts => balAux d ts

/-- An evaluation-context frame: one conditional block that the render
walk enters, given as the sibling nodes before the block, the block's
condition name and trim flags, and the sibling nodes after it. -/
structure CFrame where
  pre : List Node
  n : String
  lt : Bool
  rt : Bool
  elt : Bool
  ert : Bool
  post : List Node

/-- Plug a node list into a nest of conditional-block frames, innermost
frame first: each frame wraps the current list in a conditional block
between its sibling nodes. -/
def plugC : List CFrame → List Node → List Node
  | [], inner => inner
  | f :: fs, inner => plugC fs (f.pre ++ Node.cond f.n f.lt f.rt inner f.elt f.ert :: f.post)

mutual
/-- Nesting depth of conditional blocks below one node. -/
def nodeDepth : Node → Nat
  | .text _ => 0
  | .subst _ => 0
  | .cond _ _ _ body _ _ => 1 + nodesDepth body
/-- Nesting depth of conditional blocks in a node list. -/
def nodesDepth : List Node → Nat
  | [] => 0
  | n :: rest => max (nodeDepth n) (nodesDepth rest)
end

mutual
/-- Variable names referenced by one node (substitutions and conditions). -/
def nodeRefs : Node → List String
  | .text _ => []
  | .subst n => [n]
  | .cond n _ _ body _ _ => n :: nodesRefs body
/-- Variable names referenced in a node list. -/
def nodesRefs : List Node → List String
  | [] => []
  | n :: rest => nodeRefs n ++ nodesRefs rest
end

/-- Boolean test: the first list is a prefix of the second. -/
def startsWithL : List Char → List Char → Bool
  | [], _ => true
  | _ :: _, [] => false
  | x :: xs, y :: ys => x = y && startsWithL xs ys

/-- Boolean test: the first list is a suffix of the second. -/
def endsWithL (p l : List Char) : Bool := startsWithL p.reverse l.reverse

/-- Boolean test: the first list occurs as a contiguous sublist of the second. -/
def containsL (p : List Char) : List Char → Bool
  | [] => p.isEmpty
  | c :: rest => startsWithL p (c :: rest) || containsL p rest

/-- A syntactically well-formed shipped template: it parses, and all its
conditional blocks sit at nesting depth one. -/
def wfTemplate (t : String) : Bool :=
  match parse t with
  | .ok d => decide (nodesDepth d ≤ 1)
  | .error _ => false

/-- Prepend already-lexed tokens to a lexing result. -/
def consToks (pre : List Tok) : Except RenderError (List Tok) → Except RenderError (List Tok)
  | .ok ts => .ok (pre ++ ts)
  | .error e => .error e

/-- Push a run of literal characters onto the node accumulator. -/
def pushChars (cs : List Char) (cur : List Node) : List Node :=
  cs.foldl (fun acc c => addChar c acc) cur

/-- Literal text of the build.rs template before its conditional block:
the `fn main() \x7b` line and the build-time-scripts comment line. -/
def bPfx : String :=
  "fn main() \x7b\n    // Build time scripts go here. If you have nothing to do here, you can remove this file.\n"

/-- First literal chunk of the build.rs conditional body. -/
def bMid1 : String :=
  "\n    csbindgen::Builder::default()\n        .input_extern_file(\"src/exports.rs\")\n        .csharp_dll_name(\""

/-- The same chunk after the right-trim of `-%\x7d` removes its leading
whitespace run. -/
def bMid1s : String :=
  "csbindgen::Builder::default()\n        .input_extern_file(\"src/exports.rs\")\n        .csharp_dll_name(\""

/-- Second literal chunk of the build.rs conditional body. -/
def bMid2 : String :=
  "\")\n        .csharp_class_accessibility(\"public\")\n        .csharp_namespace(\""

/-- Third literal chunk of the build.rs conditional body. -/
def bMid3 : String :=
  ".Net.Sys\")\n        .generate_csharp_file(\"../bindings/csharp/NativeMethods.g.cs\")\n        .unwrap();\n"

/-- Literal text of the build.rs template after its conditional block:
the closing `\x7d` line and the file's final newline. -/
def bTail : String := "\n\x7d\n\n"

theorem splitTag_eq_append (a b : Char) :
    ∀ (cs p r : List Char), splitTag a b cs = some (p, r) → cs = p ++ a :: b :: r := by
  intro cs
  induction cs with
  | nil => intro p r h; simp [splitTag] at h
  | cons x t ih =>
    intro p r h
    cases t with
    | nil => simp [splitTag] at h
    | cons y rest =>
      simp only [splitTag] at h
      split at h
      · rename_i hc
        simp only [Bool.and_eq_true, decide_eq_true_eq] at hc
        obtain ⟨hx, hy⟩ := hc
        simp only [Option.some.injEq, Prod.mk.injEq] at h
        obtain ⟨hp, hr⟩ := h
        subst hx; subst hy; subst hp; subst hr
        simp
      · cases hs : splitTag a b (y :: rest) with
        | none => rw [hs] at h; simp at h
        | some pr =>
          obtain ⟨p', r'⟩ := pr
          rw [hs] at h
          simp only [Option.some.injEq, Prod.mk.injEq] at h
          obtain ⟨hp, hr⟩ := h
          rw [← hp, ← hr]
          have h2 := ih p' r' hs
          rw [List.cons_append, ← h2]

theorem noPair_splitTag_none (a b : Char) :
    ∀ cs, noPair a b cs = true → splitTag a b cs = none := by
  intro cs
  induction cs with
  | nil => intro _; simp [splitTag]
  | cons x t ih =>
    intro h
    cases t with
    | nil => simp [splitTag]
    | cons y rest =>
      simp only [noPair, Bool.and_eq_true, Bool.not_eq_true'] at h
      obtain ⟨h1, h2⟩ := h
      simp only [splitTag, h1, Bool.false_eq_true, if_false]
      rw [ih h2]

theorem splitTag_append (a b : Char) :
    ∀ (p r : List Char), (∀ x ∈ p, x ≠ a) → splitTag a b (p ++ a :: b :: r) = some (p, r) := by
  intro p
  induction p with
  | nil => intro r _; simp [splitTag]
  | cons x p' ih =>
    intro r hp
    have hx : x ≠ a := hp x (by simp)
    have hrec := ih r (fun y hy => hp y (by simp [hy]))
    have hcond : (x = a && (p' ++ a :: b :: r).headI = b) = false := by
      simp [hx]
    cases hpp : p' ++ a :: b :: r with
    | nil => simp at hpp
    | cons z zs =>
      rw [List.cons_append, hpp]
      have hcond2 : (x = a && z = b) = false := by
        simp [hx]
      simp only [splitTag, hcond2, Bool.false_eq_true, if_false]
      rw [← hpp, hrec]

/-- The result of lexing does not depend on the fuel, provided the fuel
exceeds the input length. -/
theorem lexF_congr :
    ∀ (f1 : Nat) (cs : List Char) (f2 : Nat), cs.length < f1 → cs.length < f2 →
      lexF f1 cs = lexF f2 cs := by
  intro f1
  induction f1 with
  | zero => intro cs f2 h1 _; omega
  | succ f1 ih =>
    intro cs f2 h1 h2
    cases f2 with
    | zero => omega
    | succ f2 =>
      cases cs with
      | nil => simp [lexF]
      | cons c1 t =>
        cases t with
        | nil => simp [lexF]
        | cons c2 rest =>
          simp only [List.length_cons] at h1 h2
          simp only [lexF]
          by_cases hb1 : (c1 = lbr && c2 = lbr) = true
          · rw [if_pos hb1, if_pos hb1]
            cases hsp : splitTag rbr rbr rest with
            | none => rfl
            | some pr =>
              obtain ⟨content, rem⟩ := pr
              have hlen := congrArg List.length (splitTag_eq_append rbr rbr rest content rem hsp)
              simp only [List.length_append, List.length_cons] at hlen
              have hrw : lexF f1 rem = lexF f2 rem := ih rem f2 (by omega) (by omega)
              simp only [hrw]
          · rw [if_neg hb1, if_neg hb1]
            by_cases hb2 : (c1 = lbr && c2 = pct) = true
            · rw [if_pos hb2, if_pos hb2]
              cases hsp : splitTag pct rbr rest with
              | none => rfl
              | some pr =>
                obtain ⟨content, rem⟩ := pr
                have hlen := congrArg List.length (splitTag_eq_append pct rbr rest content rem hsp)
                simp only [List.length_append, List.length_cons] at hlen
                have hrw : lexF f1 rem = lexF f2 rem := ih rem f2 (by omega) (by omega)
                simp only [hrw]
            · rw [if_neg hb2, if_neg hb2]
              have hrw : lexF f1 (c2 :: rest) = lexF f2 (c2 :: rest) :=
                ih (c2 :: rest) f2 (by simp; omega) (by simp; omega)
              rw [hrw]

theorem consToks_consToks (p q : List Tok) (r : Except RenderError (List Tok)) :
    consToks p (consToks q r) = consToks (p ++ q) r := by
  cases r <;> simp [consToks]

theorem consToks_nil (r : Except RenderError (List Tok)) : consToks [] r = r := by
  cases r <;> simp [consToks]

theorem getLast?_cons_cons (x y : Char) (l : List Char) :
    (x :: y :: l).getLast? = (y :: l).getLast? := rfl

/-- Lexing a directive-free chunk followed by anything lexes the chunk
into literal-character tokens and continues behind it.  The side
condition forbids a directive opener straddling the boundary. -/
theorem lexF_append_chr :
    ∀ (cs : List Char) (f : Nat) (rest : List Char),
      cs.length + rest.length < f →
      noOpen cs = true →
      (cs.getLast? = some lbr → rest.head? ≠ some lbr ∧ rest.head? ≠ some pct) →
      lexF f (cs ++ rest) = consToks (cs.map Tok.chr) (lexF f rest) := by
  intro cs
  induction cs with
  | nil =>
    intro f rest _ _ _
    simp [consToks_nil]
  | cons c cs' ih =>
    intro f rest h hn hg
    cases f with
    | zero => omega
    | succ f' =>
      cases cs' with
      | nil =>
        cases rest with
        | nil =>
          simp [lexF, consToks]
        | cons r1 rest' =>
          have hng : ¬(c = lbr ∧ (r1 = lbr ∨ r1 = pct)) := by
            intro hand
            obtain ⟨hc, hr⟩ := hand
            have := hg (by simp [hc])
            cases hr with
            | inl h1 => exact this.1 (by simp [h1])
            | inr h1 => exact this.2 (by simp [h1])
          have hb1 : (c = lbr && r1 = lbr) = false := by
            simp only [Bool.and_eq_false_iff, decide_eq_false_iff_not]
            by_cases hc : c = lbr
            · right; intro hr; exact hng ⟨hc, Or.inl hr⟩
            · left; exact hc
          have hb2 : (c = lbr && r1 = pct) = false := by
            simp only [Bool.and_eq_false_iff, decide_eq_false_iff_not]
            by_cases hc : c = lbr
            · right; intro hr; exact hng ⟨hc, Or.inr hr⟩
            · left; exact hc
          simp only [List.cons_append, List.nil_append, lexF, hb1, hb2, Bool.false_eq_true,
            if_false]
          have hcg : lexF f' (r1 :: rest') = lexF (f' + 1) (r1 :: rest') := by
            apply lexF_congr <;> simp at h ⊢ <;> omega
          rw [hcg]
          cases lexF (f' + 1) (r1 :: rest') <;> simp [consToks]
      | cons c2 cs'' =>
        simp only [noOpen, Bool.and_eq_true, Bool.not_eq_true', Bool.and_eq_false_iff,
          decide_eq_false_iff_not, Bool.or_eq_false_iff] at hn
        obtain ⟨hn1, hn2⟩ := hn
        have hb1 : (c = lbr && c2 = lbr) = false := by
          cases hn1 with
          | inl h1 => simp [h1]
          | inr h1 => simp [h1.1]
        have hb2 : (c = lbr && c2 = pct) = false := by
          cases hn1 with
          | inl h1 => simp [h1]
          | inr h1 => simp [h1.2]
        simp only [List.cons_append, lexF, hb1, hb2, Bool.false_eq_true, if_false]
        have hg' : (c2 :: cs'').getLast? = some lbr →
            rest.head? ≠ some lbr ∧ rest.head? ≠ some pct := by
          intro hlast
          apply hg
          rw [getLast?_cons_cons]
          exact hlast
        have hrec := ih f' rest (by simp at h ⊢; omega)
          (by simpa [noOpen] using hn2) hg'
        rw [List.cons_append] at hrec
        simp only [List.append_eq]
        rw [hrec]
        have hcg : lexF f' rest = lexF (f' + 1) rest := by
          apply lexF_congr <;> simp at h ⊢ <;> omega
        rw [hcg]
        cases lexF (f' + 1) rest <;> simp [consToks]

theorem lex_append_chr (cs rest : List Char) (hn : noOpen cs = true)
    (hg : cs.getLast? = some lbr → rest.head? ≠ some lbr ∧ rest.head? ≠ some pct) :
    lex (cs ++ rest) = consToks (cs.map Tok.chr) (lex rest) := by
  unfold lex
  rw [lexF_append_chr cs ((cs ++ rest).length + 1) rest
    (by simp only [List.length_append]; omega) hn hg]
  have hcg : lexF ((cs ++ rest).length + 1) rest = lexF (rest.length + 1) rest :=
    lexF_congr _ rest _ (by simp only [List.length_append]; omega) (by omega)
  rw [hcg]

/-- A directive-free character stream lexes to its literal characters. -/
theorem lex_noOpen (cs : List Char) (hn : noOpen cs = true) :
    lex cs = .ok (cs.map Tok.chr) := by
  have := lex_append_chr cs [] hn (by intro _; simp)
  simpa [lex, lexF, consToks] using this

theorem buildAux_chrs :
    ∀ (cs : List Char) (stack : List (String × Bool × Bool × List Node)) (cur : List Node)
      (ts : List Tok),
      buildAux stack cur (cs.map Tok.chr ++ ts) = buildAux stack (pushChars cs cur) ts := by
  intro cs
  induction cs with
  | nil => intro stack cur ts; simp [pushChars]
  | cons c cs' ih =>
    intro stack cur ts
    simp only [List.map_cons, List.cons_append, buildAux]
    rw [ih]
    simp [pushChars]

theorem pushChars_text :
    ∀ (cs s : List Char) (rest : List Node),
      pushChars cs (Node.text s :: rest) = Node.text (s ++ cs) :: rest := by
  intro cs
  induction cs with
  | nil => intro s rest; simp [pushChars]
  | cons c cs' ih =>
    intro s rest
    have h1 : pushChars (c :: cs') (Node.text s :: rest)
        = pushChars cs' (Node.text (s ++ [c]) :: rest) := by
      simp [pushChars, addChar]
    rw [h1, ih]
    simp

theorem pushChars_nil_acc :
    ∀ (cs : List Char), pushChars cs ([] : List Node)
      = if cs.isEmpty then [] else [Node.text cs] := by
  intro cs
  cases cs with
  | nil => simp [pushChars]
  | cons c cs' =>
    have h1 : pushChars (c :: cs') [] = pushChars cs' [Node.text [c]] := by
      simp [pushChars, addChar]
    rw [h1, pushChars_text]
    simp

theorem buildAux_ok_balanced :
    ∀ (ts : List Tok) (stack : List (String × Bool × Bool × List Node)) (cur d : List Node),
      buildAux stack cur ts = .ok d → balAux stack.length ts = true := by
  intro ts
  induction ts with
  | nil =>
    intro stack cur d h
    cases stack with
    | nil => rfl
    | cons f st' => simp [buildAux] at h
  | cons tok ts ih =>
    intro stack cur d h
    cases tok with
    | chr c =>
      simp only [buildAux] at h
      simpa [balAux] using ih _ _ _ h
    | tsubst n =>
      simp only [buildAux] at h
      simpa [balAux] using ih _ _ _ h
    | tif n lt rt =>
      simp only [buildAux] at h
      have hrec := ih _ _ _ h
      simp only [List.length_cons] at hrec
      simpa [balAux] using hrec
    | tendif lt rt =>
      cases stack with
      | nil => simp [buildAux] at h
      | cons f st' =>
        obtain ⟨n, flt, frt, saved⟩ := f
        simp only [buildAux] at h
        have hrec := ih _ _ _ h
        simp only [List.length_cons, balAux]
        rw [if_neg (by simp)]
        simpa using hrec

theorem buildAux_error_syntax :
    ∀ (ts : List Tok) (stack : List (String × Bool × Bool × List Node)) (cur : List Node)
      (e : RenderError),
      buildAux stack cur ts = .error e → ∃ m, e = .syntaxError m := by
  intro ts
  induction ts with
  | nil =>
    intro stack cur e h
    cases stack with
    | nil => simp [buildAux] at h
    | cons f st' =>
      simp only [buildAux, Except.error.injEq] at h
      exact ⟨_, h.symm⟩
  | cons tok ts ih =>
    intro stack cur e h
    cases tok with
    | chr c => simp only [buildAux] at h; exact ih _ _ _ h
    | tsubst n => simp only [buildAux] at h; exact ih _ _ _ h
    | tif n lt rt => simp only [buildAux] at h; exact ih _ _ _ h
    | tendif lt rt =>
      cases stack with
      | nil =>
        simp only [buildAux, Except.error.injEq] at h
        exact ⟨_, h.symm⟩
      | cons f st' =>
        obtain ⟨n, flt, frt, saved⟩ := f
        simp only [buildAux] at h
        exact ih _ _ _ h

theorem lexF_error_syntax :
    ∀ (f : Nat) (cs : List Char) (e : RenderError),
      lexF f cs = .error e → ∃ m, e = .syntaxError m := by
  intro f
  induction f with
  | zero =>
    intro cs e h
    simp only [lexF, Except.error.injEq] at h
    exact ⟨_, h.symm⟩
  | succ f ih =>
    intro cs e h
    cases cs with
    | nil => simp [lexF] at h
    | cons c1 t =>
      cases t with
      | nil => simp [lexF] at h
      | cons c2 rest =>
        simp only [lexF] at h
        split at h
        · split at h
          · simp only [Except.error.injEq] at h
            exact ⟨_, h.symm⟩
          · split at h
            · simp only [Except.error.injEq] at h
              exact ⟨_, h.symm⟩
            · split at h
              · simp at h
              · rename_i htoks
                simp only [Except.error.injEq] at h
                subst h
                exact ih _ _ htoks
        · split at h
          · split at h
            · simp only [Except.error.injEq] at h
              exact ⟨_, h.symm⟩
            · split at h
              · simp only [Except.error.injEq] at h
                exact ⟨_, h.symm⟩
              · split at h
                · simp at h
                · rename_i htoks
                  simp only [Except.error.injEq] at h
                  subst h
                  exact ih _ _ htoks
          · split at h
            · simp at h
            · rename_i htoks
              simp only [Except.error.injEq] at h
              subst h
              exact ih _ _ htoks

theorem parse_error_syntax (t : String) (e : RenderError)
    (h : parse t = .error e) : ∃ m, e = .syntaxError m := by
  unfold parse parseC at h
  cases hlex : lex t.data with
  | ok toks =>
    rw [hlex] at h
    exact buildAux_error_syntax toks [] [] e h
  | error e' =>
    rw [hlex] at h
    simp only [Except.error.injEq] at h
    subst h
    exact lexF_error_syntax _ _ _ hlex

theorem renderNodes_nil (v : VarSet) (st : RState) : renderNodes v [] st = .ok st := rfl

theorem renderNodes_cons_ok {v : VarSet} {n : Node} {rest : List Node} {st st' : RState}
    (h : renderNode v n st = .ok st') :
    renderNodes v (n :: rest) st = renderNodes v rest st' := by
  simp [renderNodes, h]

theorem renderNodes_cons_err {v : VarSet} {n : Node} {rest : List Node} {st : RState}
    {e : RenderError} (h : renderNode v n st = .error e) :
    renderNodes v (n :: rest) st = .error e := by
  simp [renderNodes, h]

theorem renderNode_text (v : VarSet) (s : List Char) (st : RState) :
    renderNode v (.text s) st = .ok (emitText s st) := rfl

theorem renderNode_subst_str {v : VarSet} {n : String} {s : String} (st : RState)
    (h : lookupVar v n = some (.str s)) :
    renderNode v (.subst n) st = .ok ⟨st.out ++ s.data, false⟩ := by
  simp [renderNode, h]

theorem renderNode_subst_none {v : VarSet} {n : String} (st : RState)
    (h : lookupVar v n = none) :
    renderNode v (.subst n) st = .error (.undefinedVariable n) := by
  simp [renderNode, h]

theorem renderNode_cond_none {v : VarSet} {n : String} (lt rt : Bool) (body : List Node)
    (elt ert : Bool) (st : RState) (h : lookupVar v n = none) :
    renderNode v (.cond n lt rt body elt ert) st = .error (.undefinedVariable n) := by
  simp [renderNode, h]

theorem renderNode_cond_false {v : VarSet} {n : String} {lt rt : Bool} {body : List Node}
    {elt ert : Bool} {st : RState} (h : lookupVar v n = some (.bool false)) :
    renderNode v (.cond n lt rt body elt ert) st = .ok st := by
  simp [renderNode, h]

theorem renderNode_cond_true {v : VarSet} {n : String} {lt rt : Bool} {body : List Node}
    {elt ert : Bool} {st st2 : RState} (h : lookupVar v n = some (.bool true))
    (hb : renderNodes v body ⟨if lt then rstrip st.out else st.out, rt⟩ = .ok st2) :
    renderNode v (.cond n lt rt body elt ert) st
      = .ok ⟨if elt then rstrip st2.out else st2.out, ert⟩ := by
  simp [renderNode, h, hb]

theorem renderNode_cond_true_plain {v : VarSet} {n : String} {body : List Node}
    {st st2 : RState} (h : lookupVar v n = some (.bool true))
    (hb : renderNodes v body ⟨st.out, false⟩ = .ok st2) :
    renderNode v (.cond n false false body false false) st = .ok ⟨st2.out, false⟩ := by
  have hres := @renderNode_cond_true v n false false body false false st st2 h (by exact hb)
  simpa using hres

theorem renderNode_cond_true_rt {v : VarSet} {n : String} {body : List Node}
    {st st2 : RState} (h : lookupVar v n = some (.bool true))
    (hb : renderNodes v body ⟨st.out, true⟩ = .ok st2) :
    renderNode v (.cond n false true body false false) st = .ok ⟨st2.out, false⟩ := by
  have hres := @renderNode_cond_true v n false true body false false st st2 h (by exact hb)
  simpa using hres

theorem renderNodes_append (v : VarSet) :
    ∀ (a b : List Node) (st : RState),
      renderNodes v (a ++ b) st =
        match renderNodes v a st with
        | .ok st' => renderNodes v b st'
        | .error e => .error e := by
  intro a
  induction a with
  | nil => intro b st; simp [renderNodes]
  | cons n a' ih =>
    intro b st
    simp only [List.cons_append, renderNodes]
    cases renderNode v n st with
    | ok st' => simp only [List.append_eq]; rw [ih]
    | error e => simp

theorem emitText_nopending (s : List Char) (st : RState) (h : st.pending = false) :
    emitText s st = ⟨st.out ++ s, false⟩ := by
  simp [emitText, h]

theorem renderNodes_append_ok {v : VarSet} {a : List Node} {st st' : RState}
    (b : List Node) (h : renderNodes v a st = .ok st') :
    renderNodes v (a ++ b) st = renderNodes v b st' := by
  rw [renderNodes_append, h]

theorem renderNodes_append_err {v : VarSet} {a : List Node} {st : RState}
    {e : RenderError} (b : List Node) (h : renderNodes v a st = .error e) :
    renderNodes v (a ++ b) st = .error e := by
  rw [renderNodes_append, h]

theorem renderDoc_of_ok {d : List Node} {v : VarSet} {st : RState}
    (h : renderNodes v d ⟨[], false⟩ = .ok st) :
    renderDoc d v = .ok (String.mk st.out) := by
  unfold renderDoc
  rw [h]

theorem renderDoc_of_err {d : List Node} {v : VarSet} {e : RenderError}
    (h : renderNodes v d ⟨[], false⟩ = .error e) :
    renderDoc d v = .error e := by
  unfold renderDoc
  rw [h]

theorem renderTemplate_of_parse {t : String} {d : List Node} (v : VarSet)
    (h : parse t = .ok d) :
    renderTemplate t v = renderDoc d v := by
  unfold renderTemplate
  rw [h]

theorem data_append (a b : String) : (a ++ b).data = a.data ++ b.data := by
  cases a; cases b; rfl

theorem isNameChar_not_ws {c : Char} (h : isNameChar c = true) : c.isWhitespace = false := by
  by_contra hw
  rw [Bool.not_eq_false] at hw
  simp only [Char.isWhitespace, Bool.or_eq_true, decide_eq_true_eq] at hw
  rcases hw with ((h1 | h1) | h1) | h1 <;> subst h1 <;> exact absurd h (by decide)

theorem isNameChar_ne_pct {c : Char} (h : isNameChar c = true) : c ≠ pct := by
  intro he
  subst he
  exact absurd h (by decide)

theorem lstrip_cons_ws {c : Char} (l : List Char) (h : c.isWhitespace = true) :
    lstrip (c :: l) = lstrip l := by
  simp [lstrip, List.dropWhile_cons, h]

theorem lstrip_cons_nonws {c : Char} (l : List Char) (h : c.isWhitespace = false) :
    lstrip (c :: l) = c :: l := by
  simp [lstrip, List.dropWhile_cons, h]

theorem rstrip_concat_ws {c : Char} (l : List Char) (h : c.isWhitespace = true) :
    rstrip (l ++ [c]) = rstrip l := by
  unfold rstrip
  rw [List.reverse_append]
  simp [List.dropWhile_cons, h]

theorem rstrip_eq_self_of_last {l : List Char} {a : Char} (hl : l.getLast? = some a)
    (ha : a.isWhitespace = false) : rstrip l = l := by
  unfold rstrip
  have hrev : l.reverse.head? = some a := by rw [List.head?_reverse]; exact hl
  cases hr : l.reverse with
  | nil => rw [hr] at hrev; simp at hrev
  | cons x tl =>
    rw [hr] at hrev
    simp only [List.head?_cons, Option.some.injEq] at hrev
    subst hrev
    have hd : List.dropWhile Char.isWhitespace (x :: tl) = x :: tl := by
      simp [List.dropWhile_cons, ha]
    rw [hd, ← hr, List.reverse_reverse]

theorem getLast?_cons_of_ne {x : Char} {l : List Char} (h : l ≠ []) :
    (x :: l).getLast? = l.getLast? := by
  cases l with
  | nil => exact absurd rfl h
  | cons y ys => exact getLast?_cons_cons x y ys

/-- The interior ` if NAME ` of a plain conditional opener parses to an
if token with no trim markers. -/
theorem parseTag_if_name (c : List Char) (hv : validName c = true) :
    parseTag (' ' :: 'i' :: 'f' :: ' ' :: (c ++ [' ']))
      = some (.tif (String.mk c) false false) := by
  have hall : ∀ x ∈ c, isNameChar x = true := by
    unfold validName at hv
    simp only [Bool.and_eq_true, List.all_eq_true] at hv
    exact hv.2
  have hne : c ≠ [] := by
    unfold validName at hv
    simp only [Bool.and_eq_true, Bool.not_eq_true', List.isEmpty_eq_false] at hv
    exact hv.1
  obtain ⟨a, hlast⟩ : ∃ a, c.getLast? = some a := by
    cases hc : c.getLast? with
    | none => rw [List.getLast?_eq_none_iff] at hc; exact absurd hc hne
    | some a => exact ⟨a, rfl⟩
  have hanws : a.isWhitespace = false :=
    isNameChar_not_ws (hall a (List.mem_of_mem_getLast? hlast))
  have hname : trimWs (' ' :: c) = c := by
    unfold trimWs
    rw [lstrip_cons_ws _ (by decide)]
    cases hc : c with
    | nil => exact absurd hc hne
    | cons hd tl =>
      rw [lstrip_cons_nonws _ (isNameChar_not_ws (hall hd (by rw [hc]; simp)))]
      rw [← hc]
      exact rstrip_eq_self_of_last hlast hanws
  have htrim : trimWs (' ' :: 'i' :: 'f' :: ' ' :: (c ++ [' '])) = 'i' :: 'f' :: ' ' :: c := by
    unfold trimWs
    rw [lstrip_cons_ws _ (by decide)]
    rw [lstrip_cons_nonws _ (by decide)]
    rw [show 'i' :: 'f' :: ' ' :: (c ++ [' ']) = ('i' :: 'f' :: ' ' :: c) ++ [' '] by simp]
    rw [rstrip_concat_ws _ (by decide)]
    refine rstrip_eq_self_of_last ?_ hanws
    rw [getLast?_cons_of_ne (by simp), getLast?_cons_of_ne (by simp),
      getLast?_cons_of_ne hne]
    exact hlast
  have hleft : tagLeft (' ' :: 'i' :: 'f' :: ' ' :: (c ++ [' ']))
      = (false, ' ' :: 'i' :: 'f' :: ' ' :: (c ++ [' '])) := rfl
  have hright : tagRight (' ' :: 'i' :: 'f' :: ' ' :: (c ++ [' ']))
      = (false, ' ' :: 'i' :: 'f' :: ' ' :: (c ++ [' '])) := by
    unfold tagRight
    rw [show ' ' :: 'i' :: 'f' :: ' ' :: (c ++ [' '])
        = (' ' :: 'i' :: 'f' :: ' ' :: c) ++ [' '] by simp]
    rw [List.getLast?_concat]
    simp
  have hcore : tagCore ('i' :: 'f' :: ' ' :: c) false false
      = (if validName (trimWs (' ' :: c)) = true
          then some (.tif (String.mk (trimWs (' ' :: c))) false false) else none) := rfl
  rw [hname, hv] at hcore
  unfold parseTag
  simp only [hleft, hright, htrim, hcore, if_true]

theorem startsWithL_append_self : ∀ (p r : List Char), startsWithL p (p ++ r) = true := by
  intro p
  induction p with
  | nil => intro r; simp [startsWithL]
  | cons x xs ih => intro r; simp [startsWithL, ih]

theorem startsWithL_mono :
    ∀ (p l y : List Char), startsWithL p l = true → startsWithL p (l ++ y) = true := by
  intro p
  induction p with
  | nil => intro l y _; simp [startsWithL]
  | cons x xs ih =>
    intro l y h
    cases l with
    | nil => simp [startsWithL] at h
    | cons z zs =>
      simp only [startsWithL, Bool.and_eq_true] at h
      simp only [List.cons_append, startsWithL, Bool.and_eq_true]
      exact ⟨h.1, ih zs y h.2⟩

theorem endsWithL_append_left (p x r : List Char) (h : endsWithL p r = true) :
    endsWithL p (x ++ r) = true := by
  unfold endsWithL at h ⊢
  rw [List.reverse_append]
  exact startsWithL_mono _ _ _ h

/-- C1: the spec's end-to-end scenario.  Rendering the template
`#![no_std]\n\x7b%- if build_c_libs %\x7d\npub mod exports;\n\x7b%- endif %\x7d`
with build_c_libs bound to true yields `#![no_std]\npub mod exports;`;
with build_c_libs bound to false it yields `#![no_std]\n` — the trim
markers adjacent to the rendered directives remove exactly the indicated
adjacent newlines. -/
theorem c1_end_to_end_trim :
    renderTemplate
        "#![no_std]\n\x7b%- if build_c_libs %\x7d\npub mod exports;\n\x7b%- endif %\x7d"
        [("build_c_libs", .bool true)] = .ok "#![no_std]\npub mod exports;"
    ∧ renderTemplate
        "#![no_std]\n\x7b%- if build_c_libs %\x7d\npub mod exports;\n\x7b%- endif %\x7d"
        [("build_c_libs", .bool false)] = .ok "#![no_std]\n" :=
  ⟨rfl, rfl⟩

/-- C3 (counterexample): the claim demands that Render fail whenever the
document references a name absent from the variable set; but a document
whose only reference to the missing name sits inside a conditional block
with a false condition renders successfully, so the claim as stated is
false. -/
theorem c3_counterexample_skipped_block :
    nodesRefs [Node.cond "a" false false [Node.subst "missing"] false false]
        = ["a", "missing"]
    ∧ lookupVar [("a", VarValue.bool false)] "missing" = none
    ∧ renderDoc [Node.cond "a" false false [Node.subst "missing"] false false]
        [("a", VarValue.bool false)] = .ok "" :=
  ⟨rfl, rfl, rfl⟩

theorem renderNode_cond_true_err {v : VarSet} {n : String} {lt rt : Bool} {body : List Node}
    {elt ert : Bool} {st : RState} {e : RenderError}
    (h : lookupVar v n = some (.bool true))
    (hb : renderNodes v body ⟨if lt then rstrip st.out else st.out, rt⟩ = .error e) :
    renderNode v (.cond n lt rt body elt ert) st = .error e := by
  simp [renderNode, h, hb]

/-- An error raised inside a nest of entered conditional blocks — each
with a true condition and error-free sibling nodes before it —
propagates to the whole document. -/
theorem plugC_err (v : VarSet) (e : RenderError) :
    ∀ (frames : List CFrame) (inner : List Node),
      (∀ f ∈ frames, lookupVar v f.n = some (VarValue.bool true)
          ∧ ∀ st : RState, ∃ st', renderNodes v f.pre st = .ok st') →
      (∀ st : RState, renderNodes v inner st = .error e) →
      ∀ st : RState, renderNodes v (plugC frames inner) st = .error e := by
  intro frames
  induction frames with
  | nil =>
    intro inner _ hinner st
    exact hinner st
  | cons f fs ih =>
    intro inner hf hinner st
    simp only [plugC]
    apply ih
    · intro g hg
      exact hf g (List.mem_cons_of_mem f hg)
    · intro st2
      obtain ⟨hcond, hpreok⟩ := hf f (List.mem_cons_self f fs)
      obtain ⟨st3, hst3⟩ := hpreok st2
      rw [renderNodes_append_ok _ hst3]
      exact renderNodes_cons_err (renderNode_cond_true_err hcond (hinner _))

/-- C3 (amended): when Render actually evaluates a reference whose name
is missing from the variable set — a substitution it reaches, or a
condition of a block it examines, i.e. one not inside an omitted block —
it fails with UndefinedVariableError naming that key and substitutes no
default in its place.  The reference may sit at any nesting depth: the
frames describe the entered conditional blocks around it (each condition
true, each run of sibling nodes before the reference rendering without
error from any state), matching the walk that reaches the reference. -/
theorem c3_reached_reference_fails (v : VarSet) (n : String)
    (hmiss : lookupVar v n = none) (frames : List CFrame) (pre post : List Node)
    (hframes : ∀ f ∈ frames, lookupVar v f.n = some (VarValue.bool true)
        ∧ ∀ st : RState, ∃ st', renderNodes v f.pre st = .ok st')
    (hpre : ∀ st : RState, ∃ st', renderNodes v pre st = .ok st') :
    renderDoc (plugC frames (pre ++ Node.subst n :: post)) v
        = .error (.undefinedVariable n)
    ∧ ∀ (lt rt : Bool) (body : List Node) (elt ert : Bool),
        renderDoc (plugC frames (pre ++ Node.cond n lt rt body elt ert :: post)) v
          = .error (.undefinedVariable n) := by
  constructor
  · refine renderDoc_of_err (plugC_err v _ frames _ hframes ?_ _)
    intro st
    obtain ⟨st', hst'⟩ := hpre st
    rw [renderNodes_append_ok _ hst']
    exact renderNodes_cons_err (renderNode_subst_none st' hmiss)
  · intro lt rt body elt ert
    refine renderDoc_of_err (plugC_err v _ frames _ hframes ?_ _)
    intro st
    obtain ⟨st', hst'⟩ := hpre st
    rw [renderNodes_append_ok _ hst']
    exact renderNodes_cons_err (renderNode_cond_none lt rt body elt ert st' hmiss)

/-- C3 (witness): the amended claim at the shipped build.rs document
itself — `\x7b\x7bcrate_name\x7d\x7d` referenced inside the entered
`build_csharp_libs` conditional, with a variable set lacking crate_name:
the parsed document is exactly this context, and rendering fails naming
crate_name. -/
theorem c3_reached_reference_fails_witness :
    parse buildRsText
      = .ok (plugC
          [⟨[Node.text bPfx.data], "build_csharp_libs", false, true, false, false,
            [Node.text bTail.data]⟩]
          ([Node.text bMid1.data] ++ Node.subst "crate_name" ::
            [Node.text bMid2.data, Node.subst "crate_name", Node.text bMid3.data]))
    ∧ renderTemplate buildRsText [("build_csharp_libs", VarValue.bool true)]
        = .error (.undefinedVariable "crate_name") := by
  have hdoc := (c3_reached_reference_fails [("build_csharp_libs", VarValue.bool true)]
    "crate_name" rfl
    [⟨[Node.text bPfx.data], "build_csharp_libs", false, true, false, false,
      [Node.text bTail.data]⟩]
    [Node.text bMid1.data]
    [Node.text bMid2.data, Node.subst "crate_name", Node.text bMid3.data]
    (by
      intro f hf
      simp only [List.mem_singleton] at hf
      subst hf
      exact ⟨rfl, fun st => ⟨_, rfl⟩⟩)
    (fun st => ⟨_, rfl⟩)).1
  refine ⟨rfl, ?_⟩
  rw [renderTemplate_of_parse [("build_csharp_libs", VarValue.bool true)]
    (show parse buildRsText = .ok _ from rfl)]
  exact hdoc

/-- C7: Render is deterministic — two calls on the same document and
variable set return identical results.  In this functional model the
document and variable set are values, so the calls cannot modify them. -/
theorem c7_render_deterministic (d : List Node) (v : VarSet)
    (r1 r2 : Except RenderError String)
    (h1 : renderDoc d v = r1) (h2 : renderDoc d v = r2) : r1 = r2 :=
  h1 ▸ h2

/-- C7 (witness): the determinism theorem applied to a one-node document. -/
theorem c7_render_deterministic_witness :
    (Except.ok "ab" : Except RenderError String) = .ok "ab" :=
  c7_render_deterministic [Node.text ['a', 'b']] [] _ _ rfl rfl

/-- C8: each of the four shipped template files is well-formed — it
parses successfully (every `if` matched by an `endif`, every directive
keyword recognized, the SyntaxError branch not taken) and all its
conditional blocks sit at nesting depth one. -/
theorem c8_shipped_templates_wellformed :
    wfTemplate buildRsText = true ∧ wfTemplate libRootText = true
    ∧ wfTemplate libProjText = true ∧ wfTemplate fuzzText = true :=
  ⟨rfl, rfl, rfl, rfl⟩

/-- C9: the renderer imposes no mutual exclusion between the
no-std-by-default and std-by-default conditions of the library root
template: binding both to true (with build_c_libs bound to either
boolean) renders an output containing both cfg_attr lines. -/
theorem c9_conditions_independent :
    ∀ b : Bool, ∃ out : String,
      renderTemplate libRootText
          [("no-std-by-default", .bool true), ("std-by-default", .bool true),
            ("build_c_libs", .bool b)] = .ok out
      ∧ containsL "#![cfg_attr(not(test), no_std)]".data out.data = true
      ∧ containsL "#![cfg_attr(not(feature = \"std\"), no_std)]".data out.data = true := by
  intro b
  cases b
  · exact ⟨_, rfl, rfl, rfl⟩
  · exact ⟨_, rfl, rfl, rfl⟩

/-- C4: for the nested template
`\x7b% if a %\x7d\x7b% if b %\x7dX\x7b% endif %\x7d\x7b% endif %\x7d` and
every variable set binding a and b to booleans, Render yields "X" iff
both are true and the empty string otherwise. -/
theorem c4_nested_conditionals (v : VarSet) (va vb : Bool)
    (ha : lookupVar v "a" = some (.bool va))
    (hb : lookupVar v "b" = some (.bool vb)) :
    renderTemplate "\x7b% if a %\x7d\x7b% if b %\x7dX\x7b% endif %\x7d\x7b% endif %\x7d" v
      = .ok (if va && vb then "X" else "") := by
  have hp : parse "\x7b% if a %\x7d\x7b% if b %\x7dX\x7b% endif %\x7d\x7b% endif %\x7d"
      = .ok [Node.cond "a" false false
          [Node.cond "b" false false [Node.text ['X']] false false] false false] := rfl
  rw [renderTemplate_of_parse v hp]
  cases va with
  | false =>
    have h1 : renderNodes v [Node.cond "a" false false
        [Node.cond "b" false false [Node.text ['X']] false false] false false] ⟨[], false⟩
        = .ok ⟨[], false⟩ := by
      rw [renderNodes_cons_ok (renderNode_cond_false ha)]
      rfl
    rw [renderDoc_of_ok h1]
    rfl
  | true =>
    cases vb with
    | false =>
      have hinner : renderNodes v [Node.cond "b" false false [Node.text ['X']] false false]
          ⟨([] : List Char), false⟩ = .ok ⟨[], false⟩ := by
        rw [renderNodes_cons_ok (renderNode_cond_false hb)]
        rfl
      have h1 : renderNodes v [Node.cond "a" false false
          [Node.cond "b" false false [Node.text ['X']] false false] false false] ⟨[], false⟩
          = .ok ⟨[], false⟩ := by
        rw [renderNodes_cons_ok (renderNode_cond_true_plain ha hinner)]
        rfl
      rw [renderDoc_of_ok h1]
      rfl
    | true =>
      have hX : renderNodes v [Node.text ['X']] ⟨([] : List Char), false⟩
          = .ok ⟨['X'], false⟩ := rfl
      have hinner : renderNodes v [Node.cond "b" false false [Node.text ['X']] false false]
          ⟨([] : List Char), false⟩ = .ok ⟨['X'], false⟩ := by
        rw [renderNodes_cons_ok (renderNode_cond_true_plain hb hX)]
        rfl
      have h1 : renderNodes v [Node.cond "a" false false
          [Node.cond "b" false false [Node.text ['X']] false false] false false] ⟨[], false⟩
          = .ok ⟨['X'], false⟩ := by
        rw [renderNodes_cons_ok (renderNode_cond_true_plain ha hinner)]
        rfl
      rw [renderDoc_of_ok h1]
      rfl

/-- C10: rendering the shipped build.rs template with any variable set
binding build_csharp_libs to a boolean and crate_name to a string
preserves the literal skeleton outside the conditional block: the output
begins with the `fn main() \x7b` line followed by the
build-time-scripts comment line, and ends with the closing `\x7d` line,
whatever the value of build_csharp_libs. -/
theorem c10_build_rs_skeleton (v : VarSet) (b : Bool) (s : String)
    (hb : lookupVar v "build_csharp_libs" = some (.bool b))
    (hs : lookupVar v "crate_name" = some (.str s)) :
    ∃ out : String,
      renderTemplate buildRsText v = .ok out
      ∧ startsWithL bPfx.data out.data = true
      ∧ endsWithL "\x7d\n\n".data out.data = true := by
  have hp : parse buildRsText = .ok
      [Node.text bPfx.data,
        Node.cond "build_csharp_libs" false true
          [Node.text bMid1.data, Node.subst "crate_name", Node.text bMid2.data,
            Node.subst "crate_name", Node.text bMid3.data] false false,
        Node.text bTail.data] := rfl
  rw [renderTemplate_of_parse v hp]
  cases b with
  | false =>
    have h1 : renderNodes v
        [Node.text bPfx.data,
          Node.cond "build_csharp_libs" false true
            [Node.text bMid1.data, Node.subst "crate_name", Node.text bMid2.data,
              Node.subst "crate_name", Node.text bMid3.data] false false,
          Node.text bTail.data] ⟨[], false⟩
        = .ok ⟨bPfx.data ++ bTail.data, false⟩ := by
      rw [renderNodes_cons_ok (show renderNode v (Node.text bPfx.data) ⟨[], false⟩
        = .ok ⟨bPfx.data, false⟩ from rfl)]
      rw [renderNodes_cons_ok (renderNode_cond_false hb)]
      rw [renderNodes_cons_ok (show renderNode v (Node.text bTail.data) ⟨bPfx.data, false⟩
        = .ok ⟨bPfx.data ++ bTail.data, false⟩ from rfl)]
      rfl
    rw [renderDoc_of_ok h1]
    refine ⟨_, rfl, ?_, ?_⟩
    · exact startsWithL_append_self _ _
    · exact endsWithL_append_left _ _ _ rfl
  | true =>
    have hbody : renderNodes v
        [Node.text bMid1.data, Node.subst "crate_name", Node.text bMid2.data,
          Node.subst "crate_name", Node.text bMid3.data] ⟨bPfx.data, true⟩
        = .ok ⟨bPfx.data ++ bMid1s.data ++ s.data ++ bMid2.data ++ s.data ++ bMid3.data,
            false⟩ := by
      rw [renderNodes_cons_ok (show renderNode v (Node.text bMid1.data) ⟨bPfx.data, true⟩
        = .ok ⟨bPfx.data ++ bMid1s.data, false⟩ from rfl)]
      rw [renderNodes_cons_ok (show renderNode v (Node.subst "crate_name")
          ⟨bPfx.data ++ bMid1s.data, false⟩
        = .ok ⟨bPfx.data ++ bMid1s.data ++ s.data, false⟩
        from renderNode_subst_str ⟨bPfx.data ++ bMid1s.data, false⟩ hs)]
      rw [renderNodes_cons_ok (show renderNode v (Node.text bMid2.data)
          ⟨bPfx.data ++ bMid1s.data ++ s.data, false⟩
        = .ok ⟨bPfx.data ++ bMid1s.data ++ s.data ++ bMid2.data, false⟩ from rfl)]
      rw [renderNodes_cons_ok (show renderNode v (Node.subst "crate_name")
          ⟨bPfx.data ++ bMid1s.data ++ s.data ++ bMid2.data, false⟩
        = .ok ⟨bPfx.data ++ bMid1s.data ++ s.data ++ bMid2.data ++ s.data, false⟩
        from renderNode_subst_str ⟨bPfx.data ++ bMid1s.data ++ s.data ++ bMid2.data, false⟩
          hs)]
      rw [renderNodes_cons_ok (show renderNode v (Node.text bMid3.data)
          ⟨bPfx.data ++ bMid1s.data ++ s.data ++ bMid2.data ++ s.data, false⟩
        = .ok ⟨bPfx.data ++ bMid1s.data ++ s.data ++ bMid2.data ++ s.data ++ bMid3.data,
            false⟩ from rfl)]
      rfl
    have h1 : renderNodes v
        [Node.text bPfx.data,
          Node.cond "build_csharp_libs" false true
            [Node.text bMid1.data, Node.subst "crate_name", Node.text bMid2.data,
              Node.subst "crate_name", Node.text bMid3.data] false false,
          Node.text bTail.data] ⟨[], false⟩
        = .ok ⟨bPfx.data ++ bMid1s.data ++ s.data ++ bMid2.data ++ s.data ++ bMid3.data
            ++ bTail.data, false⟩ := by
      rw [renderNodes_cons_ok (show renderNode v (Node.text bPfx.data) ⟨[], false⟩
        = .ok ⟨bPfx.data, false⟩ from rfl)]
      rw [renderNodes_cons_ok (show renderNode v
          (Node.cond "build_csharp_libs" false true
            [Node.text bMid1.data, Node.subst "crate_name", Node.text bMid2.data,
              Node.subst "crate_name", Node.text bMid3.data] false false) ⟨bPfx.data, false⟩
        = .ok ⟨bPfx.data ++ bMid1s.data ++ s.data ++ bMid2.data ++ s.data ++ bMid3.data,
            false⟩
        from @renderNode_cond_true_rt v "build_csharp_libs"
          [Node.text bMid1.data, Node.subst "crate_name", Node.text bMid2.data,
            Node.subst "crate_name", Node.text bMid3.data] ⟨bPfx.data, false⟩
          ⟨bPfx.data ++ bMid1s.data ++ s.data ++ bMid2.data ++ s.data ++ bMid3.data, false⟩
          hb hbody)]
      rw [renderNodes_cons_ok (show renderNode v (Node.text bTail.data)
          ⟨bPfx.data ++ bMid1s.data ++ s.data ++ bMid2.data ++ s.data ++ bMid3.data, false⟩
        = .ok ⟨bPfx.data ++ bMid1s.data ++ s.data ++ bMid2.data ++ s.data ++ bMid3.data
            ++ bTail.data, false⟩ from rfl)]
      rfl
    rw [renderDoc_of_ok h1]
    refine ⟨_, rfl, ?_, ?_⟩
    · show startsWithL bPfx.data
        (bPfx.data ++ bMid1s.data ++ s.data ++ bMid2.data ++ s.data ++ bMid3.data
          ++ bTail.data) = true
      simp only [List.append_assoc]
      exact startsWithL_append_self _ _
    · show endsWithL "\x7d\n\n".data
        (bPfx.data ++ bMid1s.data ++ s.data ++ bMid2.data ++ s.data ++ bMid3.data
          ++ bTail.data) = true
      have hshape : bPfx.data ++ bMid1s.data ++ s.data ++ bMid2.data ++ s.data ++ bMid3.data
          ++ bTail.data
          = (bPfx.data ++ bMid1s.data ++ s.data ++ bMid2.data ++ s.data ++ bMid3.data)
            ++ bTail.data := rfl
      rw [hshape]
      exact endsWithL_append_left _ _ _ rfl

/-- C10 (witness): the skeleton theorem at a concrete variable set. -/
theorem c10_build_rs_skeleton_witness :
    lookupVar [("build_csharp_libs", VarValue.bool true),
        ("crate_name", VarValue.str "MyCrate")] "build_csharp_libs"
      = some (VarValue.bool true)
    ∧ lookupVar [("build_csharp_libs", VarValue.bool true),
        ("crate_name", VarValue.str "MyCrate")] "crate_name"
      = some (VarValue.str "MyCrate")
    ∧ ∃ out : String,
        renderTemplate buildRsText
            [("build_csharp_libs", VarValue.bool true),
              ("crate_name", VarValue.str "MyCrate")] = .ok out
        ∧ startsWithL bPfx.data out.data = true
        ∧ endsWithL "\x7d\n\n".data out.data = true :=
  ⟨rfl, rfl,
    c10_build_rs_skeleton
      [("build_csharp_libs", VarValue.bool true), ("crate_name", VarValue.str "MyCrate")]
      true "MyCrate" rfl rfl⟩

/-- Lexing a substitution directive at the head of the stream: the
interior is cut at the first closing delimiter and parsed, and lexing
continues behind it. -/
theorem lexF_subst (f : Nat) (content rest2 : List Char)
    (hnr : ∀ x ∈ content, x ≠ rbr) (n : String) (hps : parseSubst content = some n) :
    lexF (f + 1) (lbr :: lbr :: (content ++ rbr :: rbr :: rest2))
      = consToks [Tok.tsubst n] (lexF f rest2) := by
  have hstep : lexF (f + 1) (lbr :: lbr :: (content ++ rbr :: rbr :: rest2))
      = (match splitTag rbr rbr (content ++ rbr :: rbr :: rest2) with
        | none => .error (.syntaxError "unterminated substitution")
        | some (content2, rem) =>
          match parseSubst content2 with
          | none => .error (.syntaxError "malformed substitution")
          | some n2 =>
            match lexF f rem with
            | .ok toks => .ok (.tsubst n2 :: toks)
            | .error e => .error e) := rfl
  rw [hstep]
  rw [splitTag_append rbr rbr content rest2 hnr]
  simp only [hps]
  cases lexF f rest2 <;> simp [consToks]

/-- Lexing a block directive at the head of the stream: the tag interior
is cut at the first closing delimiter and parsed, and lexing continues
behind the tag. -/
theorem lexF_tag (f : Nat) (content rest2 : List Char)
    (hnp : ∀ x ∈ content, x ≠ pct) (tok : Tok) (hpt : parseTag content = some tok) :
    lexF (f + 1) (lbr :: pct :: (content ++ pct :: rbr :: rest2))
      = consToks [tok] (lexF f rest2) := by
  have hstep : lexF (f + 1) (lbr :: pct :: (content ++ pct :: rbr :: rest2))
      = (match splitTag pct rbr (content ++ pct :: rbr :: rest2) with
        | none => .error (.syntaxError "unterminated directive")
        | some (content2, rem) =>
          match parseTag content2 with
          | none => .error (.syntaxError "malformed directive")
          | some tok2 =>
            match lexF f rem with
            | .ok toks => .ok (tok2 :: toks)
            | .error e => .error e) := rfl
  rw [hstep]
  rw [splitTag_append pct rbr content rest2 hnp]
  simp only [hpt]
  cases lexF f rest2 <;> simp [consToks]

/-- Lexing a whole single-conditional template: an if tag, a
directive-free body, and an endif tag. -/
theorem lex_if_body_endif (cl bl : List Char) (hname : validName cl = true)
    (hbody : noOpen bl = true) (hbrace : bl.getLast? ≠ some lbr) :
    lex (lbr :: pct :: ((' ' :: 'i' :: 'f' :: ' ' :: (cl ++ [' '])) ++ pct :: rbr ::
        (bl ++ [lbr, pct, ' ', 'e', 'n', 'd', 'i', 'f', ' ', pct, rbr])))
      = .ok (Tok.tif (String.mk cl) false false ::
          (bl.map Tok.chr ++ [Tok.tendif false false])) := by
  have hnopct : ∀ x ∈ (' ' :: 'i' :: 'f' :: ' ' :: (cl ++ [' '])), x ≠ pct := by
    intro x hx
    simp at hx
    have hx' : x = ' ' ∨ x = 'i' ∨ x = 'f' ∨ x ∈ cl := by tauto
    rcases hx' with h1 | h1 | h1 | h1
    · subst h1; decide
    · subst h1; decide
    · subst h1; decide
    · refine isNameChar_ne_pct ?_
      unfold validName at hname
      simp only [Bool.and_eq_true, List.all_eq_true] at hname
      exact hname.2 x h1
  have hendif : lex [lbr, pct, ' ', 'e', 'n', 'd', 'i', 'f', ' ', pct, rbr]
      = .ok [Tok.tendif false false] := rfl
  have htail : lex (bl ++ [lbr, pct, ' ', 'e', 'n', 'd', 'i', 'f', ' ', pct, rbr])
      = .ok (bl.map Tok.chr ++ [Tok.tendif false false]) := by
    rw [lex_append_chr bl _ hbody (fun hl => absurd hl hbrace), hendif]
    rfl
  unfold lex
  simp only [List.length_cons]
  rw [lexF_tag _ _ _ hnopct _ (parseTag_if_name cl hname)]
  have hcg : lexF (((' ' :: 'i' :: 'f' :: ' ' :: (cl ++ [' '])) ++ pct :: rbr ::
        (bl ++ [lbr, pct, ' ', 'e', 'n', 'd', 'i', 'f', ' ', pct, rbr])).length + 1 + 1)
      (bl ++ [lbr, pct, ' ', 'e', 'n', 'd', 'i', 'f', ' ', pct, rbr])
      = lex (bl ++ [lbr, pct, ' ', 'e', 'n', 'd', 'i', 'f', ' ', pct, rbr]) := by
    unfold lex
    apply lexF_congr
    · simp only [List.length_append, List.length_cons]
      omega
    · omega
  rw [hcg, htail]
  rfl

/-- C2: a template consisting solely of one conditional block around a
directive-free body renders to the body verbatim when the condition is
true and to the empty string when it is false, for every variable set
binding the condition name to a boolean.  (The side conditions say the
name is a valid identifier and the body really is literal text: it
contains no directive opener and does not end in an opening brace.) -/
theorem c2_single_conditional_block (c body : String) (v : VarSet) (b : Bool)
    (hname : validName c.data = true)
    (hbody : noOpen body.data = true)
    (hbrace : body.data.getLast? ≠ some lbr)
    (hv : lookupVar v c = some (.bool b)) :
    renderTemplate ("\x7b% if " ++ c ++ " %\x7d" ++ body ++ "\x7b% endif %\x7d") v
      = .ok (if b then body else "") := by
  obtain ⟨cl⟩ := c
  obtain ⟨bl⟩ := body
  have hshape : ("\x7b% if " ++ String.mk cl ++ " %\x7d" ++ String.mk bl
        ++ "\x7b% endif %\x7d").data
      = lbr :: pct :: ((' ' :: 'i' :: 'f' :: ' ' :: (cl ++ [' '])) ++ pct :: rbr ::
          (bl ++ [lbr, pct, ' ', 'e', 'n', 'd', 'i', 'f', ' ', pct, rbr])) := by
    have d1 : "\x7b% if ".data = [lbr, pct, ' ', 'i', 'f', ' '] := rfl
    have d2 : " %\x7d".data = [' ', pct, rbr] := rfl
    have d3 : "\x7b% endif %\x7d".data
        = [lbr, pct, ' ', 'e', 'n', 'd', 'i', 'f', ' ', pct, rbr] := rfl
    show (((("\x7b% if ".data ++ cl) ++ " %\x7d".data) ++ bl) ++ "\x7b% endif %\x7d".data)
        = _
    rw [d1, d2, d3]
    simp [List.append_assoc]
  have hlex2 := lex_if_body_endif cl bl hname hbody hbrace
  have hparse : parse ("\x7b% if " ++ String.mk cl ++ " %\x7d" ++ String.mk bl
        ++ "\x7b% endif %\x7d")
      = .ok [Node.cond (String.mk cl) false false ((pushChars bl []).reverse) false false]
      := by
    unfold parse parseC
    rw [hshape, hlex2]
    show buildAux [] [] (Tok.tif (String.mk cl) false false ::
        (bl.map Tok.chr ++ [Tok.tendif false false])) = _
    simp only [buildAux]
    rw [buildAux_chrs]
    simp only [buildAux]
    rfl
  rw [renderTemplate_of_parse v hparse]
  have hrb : renderNodes v ((pushChars bl []).reverse) ⟨[], false⟩ = .ok ⟨bl, false⟩ := by
    cases bl with
    | nil => rfl
    | cons x xs =>
      rw [pushChars_nil_acc]
      rfl
  cases b with
  | false =>
    have h1 : renderNodes v [Node.cond (String.mk cl) false false
        ((pushChars bl []).reverse) false false] ⟨[], false⟩ = .ok ⟨[], false⟩ := by
      rw [renderNodes_cons_ok (renderNode_cond_false hv)]
      rfl
    rw [renderDoc_of_ok h1]
    rfl
  | true =>
    have h1 : renderNodes v [Node.cond (String.mk cl) false false
        ((pushChars bl []).reverse) false false] ⟨[], false⟩ = .ok ⟨bl, false⟩ := by
      rw [renderNodes_cons_ok (renderNode_cond_true_plain hv hrb)]
      rfl
    rw [renderDoc_of_ok h1]
    rfl

/-- C2 (witness): the single-conditional theorem at the template
`\x7b% if flag %\x7dhello\x7b% endif %\x7d` with flag bound to true. -/
theorem c2_single_conditional_block_witness :
    validName "flag".data = true
    ∧ noOpen "hello".data = true
    ∧ "hello".data.getLast? ≠ some lbr
    ∧ renderTemplate ("\x7b% if " ++ "flag" ++ " %\x7d" ++ "hello" ++ "\x7b% endif %\x7d")
        [("flag", VarValue.bool true)] = .ok "hello" :=
  ⟨rfl, rfl, by decide,
    c2_single_conditional_block "flag" "hello" [("flag", VarValue.bool true)] true
      rfl rfl (by decide) rfl⟩

theorem lexF_open_tag (f : Nat) (rest : List Char) :
    lexF (f + 1) (lbr :: pct :: rest)
      = (match splitTag pct rbr rest with
        | none => .error (.syntaxError "unterminated directive")
        | some (content2, rem) =>
          match parseTag content2 with
          | none => .error (.syntaxError "malformed directive")
          | some tok2 =>
            match lexF f rem with
            | .ok toks => .ok (tok2 :: toks)
            | .error e => .error e) := rfl

theorem lexF_open_subst (f : Nat) (rest : List Char) :
    lexF (f + 1) (lbr :: lbr :: rest)
      = (match splitTag rbr rbr rest with
        | none => .error (.syntaxError "unterminated substitution")
        | some (content2, rem) =>
          match parseSubst content2 with
          | none => .error (.syntaxError "malformed substitution")
          | some n =>
            match lexF f rem with
            | .ok toks => .ok (.tsubst n :: toks)
            | .error e => .error e) := rfl

theorem lex_tag_malformed (content rest : List Char) (hpt : parseTag content = none)
    (hnp : ∀ x ∈ content, x ≠ pct) :
    lex (lbr :: pct :: (content ++ pct :: rbr :: rest))
      = .error (.syntaxError "malformed directive") := by
  unfold lex
  simp only [List.length_cons]
  rw [lexF_open_tag]
  rw [splitTag_append pct rbr content rest hnp]
  simp only [hpt]

theorem lex_sub_unterminated (rest : List Char) (hnp : noPair rbr rbr rest = true) :
    lex (lbr :: lbr :: rest) = .error (.syntaxError "unterminated substitution") := by
  unfold lex
  simp only [List.length_cons]
  rw [lexF_open_subst]
  rw [noPair_splitTag_none rbr rbr rest hnp]

theorem lex_tag_unterminated (rest : List Char) (hnp : noPair pct rbr rest = true) :
    lex (lbr :: pct :: rest) = .error (.syntaxError "unterminated directive") := by
  unfold lex
  simp only [List.length_cons]
  rw [lexF_open_tag]
  rw [noPair_splitTag_none pct rbr rest hnp]

/-- C6: malformed templates are rejected at parse time with a
SyntaxError and produce no document.  Conjunct (1): any template whose
token stream is unbalanced — an `if` without a matching `endif`, an
`endif` without an open `if`, in any order and at any position — never
parses.  Conjuncts (2)-(4): a block directive with an unrecognized
interior, an unterminated substitution opener, and an unterminated
block-directive opener each make the parse fail after any directive-free
literal prefix, whatever follows.  Conjuncts (5)-(7): a lexing failure
propagates through any directive-free literal chunk, any valid block
directive, and any valid substitution directive in front of it — so the
malformation may sit behind any well-formed prefix, these being the only
prefix forms.  Conjunct (8): whenever lexing fails, Parse fails with a
SyntaxError.  Conjunct (9): every Parse failure is a SyntaxError. -/
theorem c6_malformed_fails_syntax_error :
    (∀ (t : String) (toks : List Tok), lex t.data = .ok toks →
        balAux 0 toks = false → ∃ m, parse t = .error (.syntaxError m))
    ∧ (∀ (p content rest : List Char), noOpen p = true → p.getLast? ≠ some lbr →
        parseTag content = none → (∀ x ∈ content, x ≠ pct) →
        ∃ m, parseC (p ++ lbr :: pct :: (content ++ pct :: rbr :: rest))
          = .error (.syntaxError m))
    ∧ (∀ (p rest : List Char), noOpen p = true → p.getLast? ≠ some lbr →
        noPair rbr rbr rest = true →
        ∃ m, parseC (p ++ lbr :: lbr :: rest) = .error (.syntaxError m))
    ∧ (∀ (p rest : List Char), noOpen p = true → p.getLast? ≠ some lbr →
        noPair pct rbr rest = true →
        ∃ m, parseC (p ++ lbr :: pct :: rest) = .error (.syntaxError m))
    ∧ (∀ (p rest : List Char) (e : RenderError), noOpen p = true →
        (p.getLast? = some lbr → rest.head? ≠ some lbr ∧ rest.head? ≠ some pct) →
        lex rest = .error e → lex (p ++ rest) = .error e)
    ∧ (∀ (content rest : List Char) (tok : Tok) (e : RenderError),
        (∀ x ∈ content, x ≠ pct) → parseTag content = some tok →
        lex rest = .error e →
        lex (lbr :: pct :: (content ++ pct :: rbr :: rest)) = .error e)
    ∧ (∀ (content rest : List Char) (n : String) (e : RenderError),
        (∀ x ∈ content, x ≠ rbr) → parseSubst content = some n →
        lex rest = .error e →
        lex (lbr :: lbr :: (content ++ rbr :: rbr :: rest)) = .error e)
    ∧ (∀ (t : String) (e : RenderError), lex t.data = .error e →
        ∃ m, parse t = .error (.syntaxError m))
    ∧ (∀ (t : String) (e : RenderError), parse t = .error e → ∃ m, e = .syntaxError m) := by
  refine ⟨?_, ?_, ?_, ?_, ?_, ?_, ?_, ?_, ?_⟩
  · intro t toks hlex hbal
    cases hp : parse t with
    | ok d =>
      have hb : buildAux [] [] toks = .ok d := by
        unfold parse parseC at hp
        rw [hlex] at hp
        exact hp
      have hbal2 := buildAux_ok_balanced toks [] [] d hb
      exact absurd hbal2 (by rw [show balAux (List.length ([] : List (String × Bool × Bool
        × List Node))) toks = balAux 0 toks from rfl, hbal]; decide)
    | error e =>
      obtain ⟨m, hm⟩ := parse_error_syntax t e hp
      subst hm
      exact ⟨m, rfl⟩
  · intro p content rest hnop hplbr hpt hnp
    unfold parseC
    rw [lex_append_chr p _ hnop (fun hl => absurd hl hplbr)]
    rw [lex_tag_malformed content rest hpt hnp]
    exact ⟨_, rfl⟩
  · intro p rest hnop hplbr hnp
    unfold parseC
    rw [lex_append_chr p _ hnop (fun hl => absurd hl hplbr)]
    rw [lex_sub_unterminated rest hnp]
    exact ⟨_, rfl⟩
  · intro p rest hnop hplbr hnp
    unfold parseC
    rw [lex_append_chr p _ hnop (fun hl => absurd hl hplbr)]
    rw [lex_tag_unterminated rest hnp]
    exact ⟨_, rfl⟩
  · intro p rest e hnop hglue herr
    rw [lex_append_chr p rest hnop hglue, herr]
    rfl
  · intro content rest tok e hnp hpt herr
    unfold lex
    simp only [List.length_cons]
    rw [lexF_tag _ _ _ hnp _ hpt]
    have hcg : lexF ((content ++ pct :: rbr :: rest).length + 1 + 1) rest
        = lexF (rest.length + 1) rest := by
      apply lexF_congr
      · simp only [List.length_append, List.length_cons]
        omega
      · omega
    rw [hcg]
    unfold lex at herr
    rw [herr]
    rfl
  · intro content rest n e hnr hps herr
    unfold lex
    simp only [List.length_cons]
    rw [lexF_subst _ _ _ hnr _ hps]
    have hcg : lexF ((content ++ rbr :: rbr :: rest).length + 1 + 1) rest
        = lexF (rest.length + 1) rest := by
      apply lexF_congr
      · simp only [List.length_append, List.length_cons]
        omega
      · omega
    rw [hcg]
    unfold lex at herr
    rw [herr]
    rfl
  · intro t e h
    obtain ⟨m, hm⟩ := lexF_error_syntax _ _ _ h
    subst hm
    refine ⟨m, ?_⟩
    unfold parse parseC
    rw [h]
  · intro t e h
    exact parse_error_syntax t e h

/-- C6 (witness): the nine conjuncts instantiated — a misordered
equal-count endif/if pair; an unrecognized keyword, an unterminated
substitution and an unterminated block directive each behind a literal
prefix; failure propagation through a literal chunk, through a valid if
tag and through a valid substitution; the lex-to-parse lift; and the
error-kind conjunct at a concrete failure. -/
theorem c6_malformed_fails_syntax_error_witness :
    (∃ m, parse "\x7b% endif %\x7d\x7b% if a %\x7d" = .error (.syntaxError m))
    ∧ (∃ m, parseC ("abc".data ++ lbr :: pct ::
        (" frobnicate ".data ++ pct :: rbr :: "def".data)) = .error (.syntaxError m))
    ∧ (∃ m, parseC ("hello ".data ++ lbr :: lbr :: "x".data) = .error (.syntaxError m))
    ∧ (∃ m, parseC ("oops".data ++ lbr :: pct :: " if y ".data) = .error (.syntaxError m))
    ∧ lex ("zz".data ++ lbr :: lbr :: "x".data)
        = .error (.syntaxError "unterminated substitution")
    ∧ lex (lbr :: pct :: (" if ok ".data ++ pct :: rbr :: (lbr :: lbr :: "x".data)))
        = .error (.syntaxError "unterminated substitution")
    ∧ lex (lbr :: lbr :: (" name ".data ++ rbr :: rbr :: (lbr :: lbr :: "x".data)))
        = .error (.syntaxError "unterminated substitution")
    ∧ (∃ m, parse "\x7b\x7b" = .error (.syntaxError m))
    ∧ (∃ m, (RenderError.syntaxError "endif without matching if") = .syntaxError m) :=
  ⟨c6_malformed_fails_syntax_error.1 "\x7b% endif %\x7d\x7b% if a %\x7d"
      [Tok.tendif false false, Tok.tif "a" false false] rfl (by decide),
    c6_malformed_fails_syntax_error.2.1 "abc".data " frobnicate ".data "def".data
      (by decide) (by decide) (by decide) (by decide),
    c6_malformed_fails_syntax_error.2.2.1 "hello ".data "x".data
      (by decide) (by decide) (by decide),
    c6_malformed_fails_syntax_error.2.2.2.1 "oops".data " if y ".data
      (by decide) (by decide) (by decide),
    c6_malformed_fails_syntax_error.2.2.2.2.1 "zz".data (lbr :: lbr :: "x".data)
      (.syntaxError "unterminated substitution") (by decide) (by decide) rfl,
    c6_malformed_fails_syntax_error.2.2.2.2.2.1 " if ok ".data (lbr :: lbr :: "x".data)
      (Tok.tif "ok" false false) (.syntaxError "unterminated substitution")
      (by decide) (by decide) rfl,
    c6_malformed_fails_syntax_error.2.2.2.2.2.2.1 " name ".data (lbr :: lbr :: "x".data)
      "name" (.syntaxError "unterminated substitution") (by decide) (by decide) rfl,
    c6_malformed_fails_syntax_error.2.2.2.2.2.2.2.1 "\x7b\x7b"
      (.syntaxError "unterminated substitution") rfl,
    c6_malformed_fails_syntax_error.2.2.2.2.2.2.2.2 "\x7b% endif %\x7d\x7b% if a %\x7d"
      (.syntaxError "endif without matching if") rfl⟩

/-- C5: a template text containing no directive opener — no `\x7b\x7b`
substitution and no `\x7b%` block delimiter — renders to itself under
every variable set: Render(Parse(t), v) = t. -/
theorem c5_no_directives_identity (t : String) (v : VarSet)
    (h : noOpen t.data = true) :
    renderTemplate t v = .ok t := by
  obtain ⟨d⟩ := t
  have hlex : lex d = .ok (d.map Tok.chr) := lex_noOpen d h
  have hdd : (String.mk d).data = d := rfl
  have hparse : parse (String.mk d) = .ok (pushChars d []).reverse := by
    unfold parse parseC
    rw [hdd, hlex]
    show buildAux [] [] (List.map Tok.chr d) = .ok (pushChars d []).reverse
    rw [show List.map Tok.chr d = List.map Tok.chr d ++ [] from (List.append_nil _).symm]
    rw [buildAux_chrs]
    rfl
  rw [renderTemplate_of_parse v hparse]
  cases d with
  | nil => rfl
  | cons c cs =>
    have hpc : pushChars (c :: cs) [] = [Node.text (c :: cs)] := by
      rw [pushChars_nil_acc]
      rfl
    rw [hpc]
    rfl

/-- C5 (witness): the identity theorem at a concrete directive-free
template. -/
theorem c5_no_directives_identity_witness :
    noOpen "fn main() \x7b\x7d\n".data = true
    ∧ renderTemplate "fn main() \x7b\x7d\n" [("unused", VarValue.bool true)]
        = .ok "fn main() \x7b\x7d\n" :=
  ⟨rfl, c5_no_directives_identity "fn main() \x7b\x7d\n" [("unused", VarValue.bool true)] rfl⟩

/-- C4 (witness): the nested-conditional theorem at the variable set
binding a and b both to true. -/
theorem c4_nested_conditionals_witness :
    renderTemplate "\x7b% if a %\x7d\x7b% if b %\x7dX\x7b% endif %\x7d\x7b% endif %\x7d"
      [("a", VarValue.bool true), ("b", VarValue.bool true)] = .ok "X" :=
  c4_nested_conditionals [("a", VarValue.bool true), ("b", VarValue.bool true)]
    true true rfl rfl
